import Mathlib

/-!
Verification of the cassandra-keyspaces-checker metrics collector
(`main.go`): a one-shot pipeline that decodes a JSON document of
Cassandra metric beans and prints one line-protocol record per
surviving bean.

The development is a shallow embedding of the post-decode part of
`main` together with the helper `skipMetric`.  Go strings are modelled
as Lean `String` (a packed `List Char`); `strings.Split`,
`strings.Contains`, `strings.Replace(s, old, "", 1)` and
`strings.Join` are re-implemented structurally below so that every
definition evaluates inside the kernel.

Dynamically typed attribute values (`map[string]interface{}`) are
modelled by the sum type `GoVal`, whose variants are exactly the
dynamic types distinguished by the type switch in `main.go` lines
123-147 (nil, slice, the ten integer kinds, the two float kinds, the
two complex kinds, string, and a catch-all for every other dynamic
type, which the switch drops).  Three Go subtleties are modelled
faithfully:

* In a `switch v := value.(type)` clause that lists several types, `v`
  keeps the interface type, so the comparisons `v == 0` and `v == 0.0`
  are interface comparisons against the default-typed constants
  `int(0)` and `float64(0.0)`.  They are true only when the dynamic
  type is exactly `int` (resp. `float64`); an `int64(0)` or
  `float32(0)` attribute is counted as numeric but not as zero.

* `kv := strings.Split(part, "=")` splits on every `=`, and `kv[1]`
  is evaluated only in the `keyspace`/`name`/`scope` cases; for a
  recognized segment without `=` this indexing panics at runtime.

* the printed timestamp `time.Unix(sec, 0).UnixNano()` is the int64
  product `sec * 1e9`, which wraps two's-complement once the
  nanosecond value leaves the int64 range (decoded timestamps beyond
  roughly ±9.2e9 seconds); `wrap64` models this reduction modulo
  `2^64` into `[-2^63, 2^63)`.

Float payloads are carried as rationals; `fmt.Sprintf("%f", v)`
(fixed-point, six fractional digits, correctly rounded to nearest with
ties to even, as Go's `strconv` fixed-precision conversion rounds) is
implemented by exact rational scaling with the same
round-half-to-even rule in `scaled6`.
-/

/-- Splits a list of characters at every occurrence of the separator,
mirroring Go `strings.Split` for a one-character separator: the result
is never empty and empty fields are kept. -/
def splitOnChar (c : Char) : List Char → List (List Char)
  | [] => [[]]
  | x :: xs =>
    let r := splitOnChar c xs
    if x = c then
      [] :: r
    else
      match r with
      | [] => [[x]]
      | y :: ys => (x :: y) :: ys

/-- Go `strings.Split(s, sep)` for a one-character separator. -/
def strSplit (c : Char) (s : String) : List String :=
  (splitOnChar c s.data).map (fun l => ⟨l⟩)

/-- Removes the first occurrence of `pat` from a character list,
mirroring Go `strings.Replace(s, pat, "", 1)` for non-empty `pat`. -/
def removeFirst (pat : List Char) : List Char → List Char
  | [] => []
  | x :: xs =>
    if pat.isPrefixOf (x :: xs) then
      (x :: xs).drop pat.length
    else
      x :: removeFirst pat xs

/-- Go `strings.Replace(s, pat, "", 1)` on strings. -/
def strRemoveFirst (pat : String) (s : String) : String :=
  ⟨removeFirst pat.data s.data⟩

/-- Go `strings.Contains(s, pat)`. -/
def strContains (s pat : String) : Bool :=
  s.data.tails.any (fun t => pat.data.isPrefixOf t)

/-- Go `strings.Join(l, sep)`. -/
def joinSep (sep : String) : List String → String
  | [] => ""
  | [x] => x
  | x :: y :: ys => x ++ sep ++ joinSep sep (y :: ys)

/-- The ten integer dynamic types listed in the first case of the type
switch of `main.go` (`int64, int32, int16, int8, int, uint64, uint32,
uint16, uint8, uint`). The kind matters because the interface
comparison `v == 0` only succeeds on dynamic type `int`. -/
inductive IntKind where
  | i | i8 | i16 | i32 | i64 | u | u8 | u16 | u32 | u64
deriving DecidableEq

/-- A dynamically typed attribute value (`interface{}`), with exactly
the variants the code of `main.go` lines 123-147 distinguishes: `nil`,
a slice (`reflect.Slice`), the ten integer kinds, `float32`,
`float64`, `complex64`, `complex128`, `string`, and `vother` for every
remaining dynamic type (bool, map, struct, array, ...), which falls
through the switch. Numeric payloads of integers are carried as `Int`
and of floats/complex as `Rat`. -/
inductive GoVal where
  | vnull
  | vslice
  | vint (k : IntKind) (n : Int)
  | vfloat32 (x : Rat)
  | vfloat64 (x : Rat)
  | vcomplex64 (re im : Rat)
  | vcomplex128 (re im : Rat)
  | vstring (s : String)
  | vother
deriving DecidableEq

/-- Marks the variants that the code counts with `numericValues++`:
the integer case and the float/complex case of the type switch. -/
def isNumericVal : GoVal → Bool
  | .vint _ _ => true
  | .vfloat32 _ => true
  | .vfloat64 _ => true
  | .vcomplex64 _ _ => true
  | .vcomplex128 _ _ => true
  | _ => false

/-- Numerator/denominator scaling rounding `x * 10^6` to the nearest
integer with ties to even, for a non-negative rational: the
six-fractional-digit rounding done by Go `fmt` for the `%f` verb
(`strconv` fixed-precision decimal conversion rounds half to even,
e.g. float64 `0.0078125` prints as `0.007812`). Implemented on `Nat`
so that it evaluates in the kernel. -/
def scaled6 (x : Rat) : Nat :=
  let a := x.num.toNat * 1000000
  let f := a / x.den
  let r := a % x.den
  if x.den < 2 * r then f + 1
  else if 2 * r < x.den then f
  else if f % 2 = 0 then f else f + 1

/-- Decimal digit character. -/
def digitChar (d : Nat) : Char :=
  Char.ofNat (48 + d)

/-- The six zero-padded fractional digits of `fp < 10^6`. -/
def frac6 (fp : Nat) : String :=
  ⟨[digitChar (fp / 100000 % 10), digitChar (fp / 10000 % 10),
    digitChar (fp / 1000 % 10), digitChar (fp / 100 % 10),
    digitChar (fp / 10 % 10), digitChar (fp % 10)]⟩

/-- Go `fmt.Sprintf("%f", x)` for a non-negative value: the integer
part followed by a dot and six fractional digits. -/
def formatFixed6Pos (x : Rat) : String :=
  let n := scaled6 x
  toString (n / 1000000) ++ "." ++ frac6 (n % 1000000)

/-- Go `fmt.Sprintf("%f", x)`: fixed-point with six fractional
digits, with a leading minus sign for negative values. -/
def formatFixed6 (x : Rat) : String :=
  if x < 0 then "-" ++ formatFixed6Pos (-x) else formatFixed6Pos x

/-- The imaginary part of a complex value as printed by Go `fmt`:
always carries an explicit sign. -/
def formatSigned (x : Rat) : String :=
  if x < 0 then formatFixed6 x else "+" ++ formatFixed6 x

/-- Go `fmt.Sprintf("%f", complex(re, im))`: a parenthesized pair
`(re+imi)`, both components fixed-point. -/
def formatComplexF (re im : Rat) : String :=
  "(" ++ formatFixed6 re ++ formatSigned im ++ "i)"

/-- The contribution of one attribute entry to the per-bean
accumulators of `main.go` lines 123-147: the optional formatted field
appended to `values`, the increment of `numericValues` and the
increment of `zeroValuesCount`. -/
structure AttrContrib where
  field : Option String
  numeric : Nat
  zero : Nat
deriving DecidableEq

/-- One iteration of the value loop of `main.go` lines 123-147 for the
entry `(valueKey, value)`.

* `nil` is skipped before any reflection (line 124).
* slices are skipped by the `reflect.Slice` kind test (line 128).
* integers are printed with `%di` (trailing `i`); `v == 0` is an
  interface comparison against `int(0)`, so only a zero of dynamic
  type `int` increments `zeroValuesCount`.
* floats and complex values are printed with `%f`; `v == 0.0`
  compares against `float64(0.0)`, so only a zero of dynamic type
  `float64` increments `zeroValuesCount`.
* strings are printed double-quoted.
* every other dynamic type falls through the switch and is dropped. -/
def processAttr (valueKey : String) (value : GoVal) : AttrContrib :=
  match value with
  | .vnull => ⟨none, 0, 0⟩
  | .vslice => ⟨none, 0, 0⟩
  | .vint k n =>
      ⟨some (valueKey ++ "=" ++ toString n ++ "i"), 1,
        if k = IntKind.i ∧ n = 0 then 1 else 0⟩
  | .vfloat32 x => ⟨some (valueKey ++ "=" ++ formatFixed6 x), 1, 0⟩
  | .vfloat64 x =>
      ⟨some (valueKey ++ "=" ++ formatFixed6 x), 1,
        if x = 0 then 1 else 0⟩
  | .vcomplex64 re im => ⟨some (valueKey ++ "=" ++ formatComplexF re im), 1, 0⟩
  | .vcomplex128 re im => ⟨some (valueKey ++ "=" ++ formatComplexF re im), 1, 0⟩
  | .vstring s => ⟨some (valueKey ++ "=" ++ "\"" ++ s ++ "\""), 0, 0⟩
  | .vother => ⟨none, 0, 0⟩

/-- The three accumulators of the value loop (`values`,
`zeroValuesCount`, `numericValues` of `main.go` lines 120-122). -/
structure AttrResult where
  values : List String
  zeroValuesCount : Nat
  numericValues : Nat
deriving DecidableEq

/-- The value loop of `main.go` lines 123-147 over the attribute map,
taken in iteration order of the association list (Go map iteration
order is unspecified; every statement proved below about a fixed order
holds for each possible order by instantiating the list accordingly). -/
def processAttrs : List (String × GoVal) → AttrResult
  | [] => ⟨[], 0, 0⟩
  | (k, v) :: rest =>
    let c := processAttr k v
    let r := processAttrs rest
    ⟨c.field.toList ++ r.values, c.zero + r.zeroValuesCount,
      c.numeric + r.numericValues⟩

/-- The skip list shipped as the default of the `--skip` flag. -/
def defaultSkipList : List String :=
  ["CasCommitLatency", "CasCommitTotalLatency", "CasPrepareLatency",
   "CasPrepareTotalLatency", "CasProposeLatency",
   "CasProposeTotalLatency", "ColUpdateTimeDeltaHistogram",
   "CompressionMetadataOffHeapMemoryUsed", "CompressionRatio",
   "RowCacheHit", "RowCacheHitOutOfRange", "RowCacheMiss",
   "SpeculativeRetries"]

/-- The function `skipMetric` of `main.go` lines 180-191: the bean is
skipped when the (already stripped) key path contains the substring
`,name=<M>,` for some entry `M` of the skip list. -/
def skipMetric (skipList : List String) (keyPath : String) : Bool :=
  skipList.any (fun m => strContains keyPath (",name=" ++ m ++ ","))

/-- The tag-extraction loop of `main.go` lines 106-118 over the parts
of the key path. Each part is split at every `=` (Go `strings.Split`),
the switch inspects `kv[0]`, and the matching cases read `kv[1]`.
`none` models the index-out-of-range panic raised by `kv[1]` when a
recognized part contains no `=`. -/
def tagsLoop : List String → Option (List String)
  | [] => some []
  | part :: rest =>
    let kv := strSplit '=' part
    match kv.head? with
    | none => tagsLoop rest
    | some k =>
      if k = "keyspace" then
        match kv[1]? with
        | none => none
        | some v => (tagsLoop rest).map (fun ts => ("keyspace=" ++ v) :: ts)
      else if k = "name" then
        match kv[1]? with
        | none => none
        | some v => (tagsLoop rest).map (fun ts => ("metric=" ++ v) :: ts)
      else if k = "scope" then
        match kv[1]? with
        | none => none
        | some v => (tagsLoop rest).map (fun ts => ("cf=" ++ v) :: ts)
      else
        tagsLoop rest

/-- Tag extraction for a whole (stripped) key path: split at commas,
then run the switch of `main.go` lines 108-118 on every part. -/
def extractTags (keyPath : String) : Option (List String) :=
  tagsLoop (strSplit ',' keyPath)

/-- The per-run configuration relevant to the transformer: the
`--skip-zeros` flag, the `--skip` list, and the common key
`<checkName>,host=<hostname>` built in `main.go` lines 69 and 98. -/
structure Config where
  skipZeros : Bool
  skipList : List String
  commonKey : String

/-- Result of processing one bean: either the Go runtime crashes with
an index-out-of-range panic inside tag extraction, or the bean is
discarded without output, or one line is printed. -/
inductive BeanOutcome where
  | crash
  | skipped
  | line (s : String)
deriving DecidableEq

/-- Two's-complement wrap of an integer into the int64 range
`[-2^63, 2^63)`, i.e. reduction modulo `2^64`. `time.Unix(sec, 0)
.UnixNano()` (`main.go` lines 97 and 162) multiplies the int64 seconds
by `1e9` in int64 arithmetic, which wraps exactly like this once the
product leaves the range. -/
def wrap64 (n : Int) : Int :=
  (n + 9223372036854775808) % 18446744073709551616 - 9223372036854775808

/-- The body of the bean loop of `main.go` lines 100-164 for one
`(keyPath, valueMap)` entry:

1. strip the first occurrence of `org.apache.cassandra.metrics:`;
2. `skipMetric` filter;
3. tag extraction (may panic, modelled by `.crash`);
4. the value loop;
5. zero suppression: `skipZeros && zeroValuesCount == numericValues`;
6. print `commonKey,tags values timestampNanos` when `values` is
   non-empty, where `timestampNanos` is the int64 product of `tsSec`
   and `1000000000` (`time.Unix(tsSec, 0).UnixNano()`), modelled by
   `wrap64 (tsSec * 1000000000)`. -/
def processBean (cfg : Config) (tsSec : Int) (rawKey : String)
    (attrs : List (String × GoVal)) : BeanOutcome :=
  let keyPath := strRemoveFirst "org.apache.cassandra.metrics:" rawKey
  if skipMetric cfg.skipList keyPath then
    .skipped
  else
    match extractTags keyPath with
    | none => .crash
    | some tags =>
      let r := processAttrs attrs
      if cfg.skipZeros = true ∧ r.zeroValuesCount = r.numericValues then
        .skipped
      else if r.values ≠ [] then
        .line (cfg.commonKey ++ "," ++ joinSep "," tags ++ " " ++
          joinSep "," r.values ++ " " ++ toString (wrap64 (tsSec * 1000000000)))
      else
        .skipped

/-- The decoded JSON document (`jsonResp` of `main.go` lines 167-178),
restricted to the fields the post-decode code reads. The `value` map
is modelled as an association list in some iteration order. -/
structure JsonResp where
  status : Int
  error : Option String
  timeStamp : Int
  value : List (String × List (String × GoVal))

/-- The loop of `main.go` lines 100-164 over the beans, collecting the
lines printed to standard output. A panic aborts the process, so
nothing after it is printed. -/
def emitLoop (cfg : Config) (tsSec : Int) :
    List (String × List (String × GoVal)) → List String
  | [] => []
  | (k, attrs) :: rest =>
    match processBean cfg tsSec k attrs with
    | .crash => []
    | .skipped => emitLoop cfg tsSec rest
    | .line s => s :: emitLoop cfg tsSec rest

/-- The fatal check of `main.go` line 93: `jsonResp.Status != 200 ||
jsonResp.Error != nil` makes the process abort via `log.Fatal` before
the bean loop. -/
def docFatal (doc : JsonResp) : Bool :=
  doc.status != 200 || doc.error.isSome

/-- All lines printed to standard output by the post-decode part of
`main` for a decoded document: nothing when the document is fatal,
otherwise the output of the bean loop. -/
def runLines (cfg : Config) (doc : JsonResp) : List String :=
  if docFatal doc then [] else emitLoop cfg doc.timeStamp doc.value

/-! ### Helper lemmas about the string primitives -/

theorem strContains_iff (s pat : String) :
    strContains s pat = true ↔ pat.data <:+: s.data := by
  unfold strContains
  rw [List.any_eq_true]
  constructor
  · rintro ⟨t, ht, hpre⟩
    rw [List.mem_tails] at ht
    rw [ List.isPrefixOf_iff_prefix] at hpre
    exact List.infix_iff_prefix_suffix.mpr ⟨t, hpre, ht⟩
  · intro h
    obtain ⟨t, hpre, hsuf⟩ := List.infix_iff_prefix_suffix.mp h
    exact ⟨t, (List.mem_tails t s.data).mpr hsuf, List.isPrefixOf_iff_prefix.mpr hpre⟩

theorem splitOnChar_of_not_mem {c : Char} {l : List Char} (h : c ∉ l) :
    splitOnChar c l = [l] := by
  induction l with
  | nil => rfl
  | cons x xs ih =>
    rw [List.mem_cons, not_or] at h
    have hx : ¬ x = c := fun hq => h.1 hq.symm
    simp only [splitOnChar, if_neg hx, ih h.2]

theorem splitOnChar_append {c : Char} {l₁ l₂ : List Char} (h : c ∉ l₁) :
    splitOnChar c (l₁ ++ c :: l₂) = l₁ :: splitOnChar c l₂ := by
  induction l₁ with
  | nil => simp [splitOnChar]
  | cons x xs ih =>
    rw [List.mem_cons, not_or] at h
    have hx : ¬ x = c := fun hq => h.1 hq.symm
    rw [List.cons_append]
    simp only [splitOnChar, if_neg hx, ih h.2]

/-! ### Helper lemmas about the value loop -/

theorem processAttr_numeric_eq (k : String) (v : GoVal) :
    (processAttr k v).numeric = if isNumericVal v = true then 1 else 0 := by
  cases v <;> rfl

theorem processAttr_zero_le (k : String) (v : GoVal) :
    (processAttr k v).zero ≤ (processAttr k v).numeric := by
  cases v <;> simp only [processAttr] <;> first
    | exact Nat.le_refl _
    | exact Nat.zero_le _
    | split <;> simp

theorem processAttr_numeric_le_field (k : String) (v : GoVal) :
    (processAttr k v).numeric ≤ (processAttr k v).field.toList.length := by
  cases v <;> simp [processAttr]

theorem processAttrs_zero_le (attrs : List (String × GoVal)) :
    (processAttrs attrs).zeroValuesCount ≤ (processAttrs attrs).numericValues := by
  induction attrs with
  | nil => exact Nat.le_refl _
  | cons kv rest ih =>
    obtain ⟨k, v⟩ := kv
    have := processAttr_zero_le k v
    simp only [processAttrs]
    omega

theorem processAttrs_numeric_le_length (attrs : List (String × GoVal)) :
    (processAttrs attrs).numericValues ≤ (processAttrs attrs).values.length := by
  induction attrs with
  | nil => exact Nat.le_refl _
  | cons kv rest ih =>
    obtain ⟨k, v⟩ := kv
    have := processAttr_numeric_le_field k v
    simp only [processAttrs, List.length_append]
    omega

theorem processAttrs_all_zero (attrs : List (String × GoVal))
    (h : ∀ kv ∈ attrs, isNumericVal kv.2 = true →
      kv.2 = GoVal.vint IntKind.i 0 ∨ kv.2 = GoVal.vfloat64 0) :
    (processAttrs attrs).zeroValuesCount = (processAttrs attrs).numericValues := by
  induction attrs with
  | nil => rfl
  | cons kv rest ih =>
    obtain ⟨k, v⟩ := kv
    have htail := ih (fun kv' hm hn => h kv' (List.mem_cons_of_mem _ hm) hn)
    have hhead : (processAttr k v).zero = (processAttr k v).numeric := by
      cases v with
      | vint ik n =>
        rcases h (k, .vint ik n) (List.mem_cons_self _ _) rfl with hq | hq
        · obtain ⟨rfl, rfl⟩ : ik = IntKind.i ∧ n = 0 := by
            injection hq with h1 h2
            exact ⟨h1, h2⟩
          simp [processAttr]
        · exact absurd hq (by simp)
      | vfloat32 x =>
        rcases h (k, .vfloat32 x) (List.mem_cons_self _ _) rfl with hq | hq <;>
          exact absurd hq (by simp)
      | vfloat64 x =>
        rcases h (k, .vfloat64 x) (List.mem_cons_self _ _) rfl with hq | hq
        · exact absurd hq (by simp)
        · obtain rfl : x = 0 := by injection hq
          simp [processAttr]
      | vcomplex64 re im =>
        rcases h (k, .vcomplex64 re im) (List.mem_cons_self _ _) rfl with hq | hq <;>
          exact absurd hq (by simp)
      | vcomplex128 re im =>
        rcases h (k, .vcomplex128 re im) (List.mem_cons_self _ _) rfl with hq | hq <;>
          exact absurd hq (by simp)
      | vnull => rfl
      | vslice => rfl
      | vstring s => rfl
      | vother => rfl
    simp only [processAttrs]
    omega

theorem processAttrs_numeric_pos (attrs : List (String × GoVal))
    (h : ∃ kv ∈ attrs, isNumericVal kv.2 = true) :
    1 ≤ (processAttrs attrs).numericValues := by
  induction attrs with
  | nil => simp at h
  | cons kv rest ih =>
    obtain ⟨k, v⟩ := kv
    simp only [processAttrs]
    rcases h with ⟨kv', hmem, hnum⟩
    rcases List.mem_cons.mp hmem with rfl | hmem'
    · rw [processAttr_numeric_eq, if_pos hnum]
      omega
    · have := ih ⟨kv', hmem', hnum⟩
      omega

/-! ### Helper lemmas about the bean loop -/

theorem processBean_line_shape {cfg : Config} {ts : Int} {rawKey : String}
    {attrs : List (String × GoVal)} {s : String}
    (h : processBean cfg ts rawKey attrs = BeanOutcome.line s) :
    ∃ tags values, values ≠ [] ∧
      s = cfg.commonKey ++ "," ++ joinSep "," tags ++ " " ++
        joinSep "," values ++ " " ++ toString (wrap64 (ts * 1000000000)) := by
  simp only [processBean] at h
  split at h
  · exact absurd h (by simp)
  · split at h
    · exact absurd h (by simp)
    · split at h
      · exact absurd h (by simp)
      · split at h
        · rename_i hne
          injection h with hs
          exact ⟨_, (processAttrs attrs).values, hne, hs.symm⟩
        · exact absurd h (by simp)

theorem emitLoop_shape (cfg : Config) (ts : Int)
    (l : List (String × List (String × GoVal))) :
    ∀ s ∈ emitLoop cfg ts l, ∃ tags values, values ≠ [] ∧
      s = cfg.commonKey ++ "," ++ joinSep "," tags ++ " " ++
        joinSep "," values ++ " " ++ toString (wrap64 (ts * 1000000000)) := by
  induction l with
  | nil => intro s hs; exact absurd hs (by simp [emitLoop])
  | cons kv rest ih =>
    obtain ⟨k, attrs⟩ := kv
    intro s hs
    simp only [emitLoop] at hs
    cases hP : processBean cfg ts k attrs with
    | crash => rw [hP] at hs; exact absurd hs (by simp)
    | skipped => rw [hP] at hs; exact ih s hs
    | line s' =>
      rw [hP] at hs
      rcases List.mem_cons.mp hs with rfl | hs'
      · exact processBean_line_shape hP
      · exact ih s hs'

theorem getElem1_of_two_le {l : List String} (h : 2 ≤ l.length) :
    ∃ v, l[1]? = some v := by
  match l, h with
  | a :: b :: rest, _ => exact ⟨b, by simp⟩

theorem tagsLoop_isSome (parts : List String)
    (h : ∀ part ∈ parts,
      ((strSplit '=' part).head? = some "keyspace" ∨
       (strSplit '=' part).head? = some "name" ∨
       (strSplit '=' part).head? = some "scope") →
      2 ≤ (strSplit '=' part).length) :
    ∃ ts, tagsLoop parts = some ts := by
  induction parts with
  | nil => exact ⟨[], rfl⟩
  | cons part rest ih =>
    obtain ⟨ts', hts'⟩ := ih (fun p hp => h p (List.mem_cons_of_mem _ hp))
    cases hh : (strSplit '=' part).head? with
    | none =>
      refine ⟨ts', ?_⟩
      simp [tagsLoop, hh, hts']
    | some k =>
      by_cases hk1 : k = "keyspace"
      · subst hk1
        obtain ⟨v, hv⟩ :=
          getElem1_of_two_le (h part (List.mem_cons_self _ _) (Or.inl hh))
        refine ⟨("keyspace=" ++ v) :: ts', ?_⟩
        simp [tagsLoop, hh, hv, hts']
      · by_cases hk2 : k = "name"
        · subst hk2
          obtain ⟨v, hv⟩ :=
            getElem1_of_two_le (h part (List.mem_cons_self _ _) (Or.inr (Or.inl hh)))
          refine ⟨("metric=" ++ v) :: ts', ?_⟩
          simp [tagsLoop, hh, hv, hts']
        · by_cases hk3 : k = "scope"
          · subst hk3
            obtain ⟨v, hv⟩ :=
              getElem1_of_two_le (h part (List.mem_cons_self _ _) (Or.inr (Or.inr hh)))
            refine ⟨("cf=" ++ v) :: ts', ?_⟩
            simp [tagsLoop, hh, hv, hts']
          · refine ⟨ts', ?_⟩
            simp [tagsLoop, hh, hk1, hk2, hk3, hts']

/-! ### Helper lemmas about the fixed-point formatter -/

theorem getLast_append6 (l : List Char) (a b c d e f : Char) :
    (l ++ [a, b, c, d, e, f]).getLast? = some f := by
  have hq : [a, b, c, d, e, f] = [a, b, c, d, e] ++ [f] := rfl
  rw [hq, ← List.append_assoc, List.getLast?_concat]

theorem digitChar_mod_ne (m : Nat) : digitChar (m % 10) ≠ 'i' := by
  have h : m % 10 < 10 := Nat.mod_lt _ (by norm_num)
  generalize m % 10 = k at h
  interval_cases k <;> decide

theorem formatFixed6Pos_last (x : Rat) :
    (formatFixed6Pos x).data.getLast? =
      some (digitChar (scaled6 x % 1000000 % 10)) := by
  show ((toString (scaled6 x / 1000000) ++ "." ++ frac6 (scaled6 x % 1000000))).data.getLast? = _
  rw [String.data_append]
  exact getLast_append6 _ _ _ _ _ _ _

theorem formatFixed6_last_not_i (x : Rat) :
    ∃ d, (formatFixed6 x).data.getLast? = some d ∧ d ≠ 'i' := by
  unfold formatFixed6
  split
  · refine ⟨digitChar (scaled6 (-x) % 1000000 % 10), ?_, digitChar_mod_ne _⟩
    rw [String.data_append]
    show ("-".data ++
      (toString (scaled6 (-x) / 1000000) ++ "." ++ frac6 (scaled6 (-x) % 1000000)).data).getLast? = _
    rw [String.data_append]
    rw [← List.append_assoc]
    exact getLast_append6 _ _ _ _ _ _ _
  · exact ⟨_, formatFixed6Pos_last x, digitChar_mod_ne _⟩

/-! ### The trailing-comma semantics of the skip-list match -/

theorem comma_free_prefix {u Y a2 d : List Char} (hu : ',' ∉ u)
    (h : u ++ Y = a2 ++ ',' :: d) : u <+: a2 := by
  induction u generalizing a2 with
  | nil => exact List.nil_prefix
  | cons c u' ih =>
    rw [List.mem_cons, not_or] at hu
    cases a2 with
    | nil =>
      rw [List.nil_append, List.cons_append] at h
      injection h with h1 h2
      exact absurd h1.symm hu.1
    | cons b a3 =>
      rw [List.cons_append, List.cons_append] at h
      injection h with h1 h2
      subst h1
      obtain ⟨r, hr⟩ := ih hu.2 h2
      exact ⟨r, by rw [List.cons_append, hr]⟩

theorem name_pattern_not_infix (m p M : List Char)
    (hp : ¬ (([',', 'n', 'a', 'm', 'e', '='] : List Char) <:+: p))
    (hM : ',' ∉ M) :
    ¬ (([',', 'n', 'a', 'm', 'e', '='] ++ (m ++ [','])) <:+:
       (p ++ ([',', 'n', 'a', 'm', 'e', '='] ++ M))) := by
  intro h
  obtain ⟨s, t, hst⟩ := h
  have hinf : ∀ a6 : List Char,
      p = s ++ ([',', 'n', 'a', 'm', 'e', '='] ++ a6) → False := by
    intro a6 hpe
    exact hp ⟨s, a6, by rw [hpe, ← List.append_assoc]⟩
  rw [List.append_assoc] at hst
  rcases List.append_eq_append_iff.mp hst with ⟨a', ha', hb⟩ | ⟨c', hc', hd⟩
  · rcases List.append_eq_append_iff.mp hb with ⟨b', hb1, hb2⟩ | ⟨d', hd1, hd2⟩
    · exact hinf ((m ++ [',']) ++ b')
        (by rw [ha', hb1]; simp [List.append_assoc])
    · cases d' with
      | nil =>
        rw [List.append_nil] at hd1
        exact hinf (m ++ [',']) (by rw [ha', hd1])
      | cons x d'' =>
        rw [List.cons_append] at hd2
        injection hd2 with hx hrest
        subst hx
        cases a' with
        | nil =>
          rw [List.nil_append] at hd1
          rw [show ([',', 'n', 'a', 'm', 'e', '='] ++ (m ++ [',']) : List Char) =
            ',' :: (['n', 'a', 'm', 'e', '='] ++ (m ++ [','])) from rfl] at hd1
          injection hd1 with _ hd''
          rw [← hd''] at hrest
          apply hM
          have hc : ',' ∈ (['n', 'a', 'm', 'e', '='] ++ M : List Char) := by
            rw [hrest]
            simp [List.append_eq]
          rcases List.mem_append.mp hc with hcc | hcc
          · exact absurd hcc (by decide)
          · exact hcc
        | cons b a2 =>
          rw [List.cons_append] at hd1
          injection hd1 with hb1 hb2
          obtain ⟨r, hr⟩ := comma_free_prefix (by decide) hb2
          refine hinf r ?_
          rw [ha', ← hb1, ← hr]
          rfl
  · have h2 : List.count ',' ([',', 'n', 'a', 'm', 'e', '='] : List Char) = 1 := by
      decide
    have h3 : List.count ',' ([','] : List Char) = 1 := by decide
    have h1 : List.count ',' (([',', 'n', 'a', 'm', 'e', '='] ++ M : List Char)) = 1 := by
      rw [List.count_append, List.count_eq_zero.mpr hM, h2]
    rw [hd] at h1
    simp only [List.count_append] at h1
    rw [h2, h3] at h1
    omega

/-! ### Claims -/

/-- Claim C1, counterexample: a bean whose attribute map holds a single
string attribute (so the numeric-value count is zero) has a non-empty
formatted value list, yet with skip-zeros enabled the code discards it:
`zeroValuesCount == numericValues` holds vacuously at `0 == 0`, and
`main.go` line 149 has no `numericValues > 0` guard. -/
theorem claim_C1_counterexample :
    processBean ⟨true, [], "check,host=h"⟩ 1
      "org.apache.cassandra.metrics:type=ColumnFamily,keyspace=k,scope=s,name=X"
      [("A", GoVal.vstring "hello")] = BeanOutcome.skipped ∧
    (processAttrs [("A", GoVal.vstring "hello")]).values = ["A=\"hello\""] ∧
    (processAttrs [("A", GoVal.vstring "hello")]).numericValues = 0 :=
  ⟨by decide, by decide, by decide⟩

/-- Claim C1, corrected: for every bean whose attribute map yields no
numeric values, when skip-zeros is enabled the bean is always
discarded — no output line is produced even when the formatted value
list is non-empty — because the suppression test
`zeroValuesCount == numericValues` of `main.go` line 149 is vacuously
true at `0 == 0`. -/
theorem claim_C1 (skipList : List String) (common : String) (ts : Int)
    (rawKey : String) (attrs : List (String × GoVal))
    (hn : (processAttrs attrs).numericValues = 0) (s : String) :
    processBean ⟨true, skipList, common⟩ ts rawKey attrs ≠ BeanOutcome.line s := by
  intro h
  simp only [processBean] at h
  split at h
  · exact absurd h (by simp)
  · split at h
    · exact absurd h (by simp)
    · have h0 : (processAttrs attrs).zeroValuesCount =
          (processAttrs attrs).numericValues := by
        have := processAttrs_zero_le attrs
        omega
      rw [if_pos ⟨trivial, h0⟩] at h
      exact absurd h (by simp)

/-- Witness for claim C1 at a concrete numeric-free bean. -/
theorem claim_C1_witness :
    processBean ⟨true, [], "check,host=h"⟩ 0 "type=T,keyspace=k"
      [("A", GoVal.vstring "x")] ≠ BeanOutcome.line "y" :=
  claim_C1 [] "check,host=h" 0 "type=T,keyspace=k"
    [("A", GoVal.vstring "x")] (by decide) "y"

/-- Claim C2, counterexample: a bean whose only attribute is an
`int64`-typed zero has at least one numeric value and every numeric
value equal to zero, yet with skip-zeros enabled a line is still
printed: the Go interface comparison `v == 0` of `main.go` line 135
compares against `int(0)` and fails for dynamic type `int64`, so
`zeroValuesCount` stays `0` while `numericValues` is `1`. -/
theorem claim_C2_counterexample :
    processBean ⟨true, [], "check,host=h"⟩ 1 "type=T,keyspace=k,scope=s,name=X"
      [("Count", GoVal.vint IntKind.i64 0)] =
      BeanOutcome.line "check,host=h,keyspace=k,cf=s,metric=X Count=0i 1000000000" ∧
    (processAttrs [("Count", GoVal.vint IntKind.i64 0)]).numericValues = 1 ∧
    (processAttrs [("Count", GoVal.vint IntKind.i64 0)]).zeroValuesCount = 0 :=
  ⟨by decide, by decide, by decide⟩

/-- Claim C2, corrected: restricted to the zeros that the interface
comparisons of `main.go` lines 135 and 141 actually recognize — an
`int`-typed `0` or a `float64`-typed `0.0` — the claim holds: a bean
whose numeric values all are such zeros (and that has at least one of
them, passes the skip list, and has a well-formed key) is discarded
when skip-zeros is enabled and printed when it is disabled. -/
theorem claim_C2 (skipList : List String) (common : String) (ts : Int)
    (rawKey : String) (attrs : List (String × GoVal)) (tags : List String)
    (hall : ∀ kv ∈ attrs, isNumericVal kv.2 = true →
      kv.2 = GoVal.vint IntKind.i 0 ∨ kv.2 = GoVal.vfloat64 0)
    (hsome : ∃ kv ∈ attrs, isNumericVal kv.2 = true)
    (hskip : skipMetric skipList
      (strRemoveFirst "org.apache.cassandra.metrics:" rawKey) = false)
    (htags : extractTags
      (strRemoveFirst "org.apache.cassandra.metrics:" rawKey) = some tags) :
    processBean ⟨true, skipList, common⟩ ts rawKey attrs = BeanOutcome.skipped ∧
    ∃ s, processBean ⟨false, skipList, common⟩ ts rawKey attrs =
      BeanOutcome.line s := by
  have hz := processAttrs_all_zero attrs hall
  have hpos := processAttrs_numeric_pos attrs hsome
  have hlen := processAttrs_numeric_le_length attrs
  have hne : (processAttrs attrs).values ≠ [] := by
    intro hq
    rw [hq] at hlen
    simp only [List.length_nil] at hlen
    omega
  constructor
  · simp only [processBean, hskip, htags]
    simp only [Bool.false_eq_true, if_false]
    rw [if_pos ⟨trivial, hz⟩]
  · refine ⟨common ++ "," ++ joinSep "," tags ++ " " ++
      joinSep "," (processAttrs attrs).values ++ " " ++
      toString (wrap64 (ts * 1000000000)), ?_⟩
    simp only [processBean, hskip, htags]
    simp only [Bool.false_eq_true, if_false]
    rw [if_neg (by rintro ⟨hq, -⟩; exact hq), if_pos hne]

/-- Witness for claim C2 at a concrete all-zero bean. -/
theorem claim_C2_witness :
    processBean ⟨true, [], "c"⟩ 0 "type=T,keyspace=k,scope=s,name=X"
      [("Count", GoVal.vint IntKind.i 0), ("Rate", GoVal.vfloat64 0)] =
      BeanOutcome.skipped ∧
    ∃ s, processBean ⟨false, [], "c"⟩ 0 "type=T,keyspace=k,scope=s,name=X"
      [("Count", GoVal.vint IntKind.i 0), ("Rate", GoVal.vfloat64 0)] =
      BeanOutcome.line s :=
  claim_C2 [] "c" 0 "type=T,keyspace=k,scope=s,name=X"
    [("Count", GoVal.vint IntKind.i 0), ("Rate", GoVal.vfloat64 0)]
    ["keyspace=k", "cf=s", "metric=X"]
    (by decide) (by decide) (by decide) (by decide)

/-- Claim C3, counterexample: for the bean key of the claim the tags
are emitted in first-occurrence order of the key segments —
`keyspace=ks1`, then `cf=tbl1` (from `scope=tbl1`), then
`metric=ReadLatency` (from `name=ReadLatency`) — not in the order
`keyspace, metric, cf` asserted by the claim. -/
theorem claim_C3_counterexample :
    extractTags (strRemoveFirst "org.apache.cassandra.metrics:"
      "org.apache.cassandra.metrics:type=ColumnFamily,keyspace=ks1,scope=tbl1,name=ReadLatency") =
      some ["keyspace=ks1", "cf=tbl1", "metric=ReadLatency"] ∧
    (["keyspace=ks1", "cf=tbl1", "metric=ReadLatency"] : List String) ≠
      ["keyspace=ks1", "metric=ReadLatency", "cf=tbl1"] :=
  ⟨by decide, by decide⟩

/-- Claim C3, corrected: for the bean key
`org.apache.cassandra.metrics:type=ColumnFamily,keyspace=ks1,scope=tbl1,name=ReadLatency`
with attributes `Count = int(42)` and `OneMinuteRate = float64(0.0)`
(in that iteration order) and skip-zeros disabled, the emitted line
carries the tag list `keyspace=ks1,cf=tbl1,metric=ReadLatency` — the
key's segment order, with `scope` before `name` — and the field list
`Count=42i,OneMinuteRate=0.000000`, with the default skip list in
effect and timestamp second 1 rendered as 1000000000 nanoseconds. -/
theorem claim_C3 :
    processBean ⟨false, defaultSkipList, "check,host=h"⟩ 1
      "org.apache.cassandra.metrics:type=ColumnFamily,keyspace=ks1,scope=tbl1,name=ReadLatency"
      [("Count", GoVal.vint IntKind.i 42), ("OneMinuteRate", GoVal.vfloat64 0)] =
      BeanOutcome.line
        "check,host=h,keyspace=ks1,cf=tbl1,metric=ReadLatency Count=42i,OneMinuteRate=0.000000 1000000000" := by
  decide

/-- Claim C4, confirmed: the skip-list filter discards a (stripped)
bean key exactly when the key contains the substring `,name=<M>,` for
some configured entry `M`; in particular the entry `Foo` matches a key
containing `,name=Foo,` but not one containing only `,name=FooBar,`. -/
theorem claim_C4 (skipList : List String) (keyPath : String) :
    (skipMetric skipList keyPath = true ↔
      ∃ m ∈ skipList, (",name=" ++ m ++ ",").data <:+: keyPath.data) ∧
    skipMetric ["Foo"] "type=T,name=Foo,scope=s" = true ∧
    skipMetric ["Foo"] "type=T,name=FooBar,scope=s" = false := by
  refine ⟨?_, by decide, by decide⟩
  unfold skipMetric
  rw [List.any_eq_true]
  constructor
  · rintro ⟨m, hm, hc⟩
    exact ⟨m, hm, (strContains_iff _ _).mp hc⟩
  · rintro ⟨m, hm, hc⟩
    exact ⟨m, hm, (strContains_iff _ _).mpr hc⟩

/-- Claim C5, counterexample: a bean key consisting of the bare
segment `keyspace` (no `=`) makes the Transformer panic: the switch of
`main.go` line 110 matches `kv[0] == "keyspace"` and line 112 indexes
`kv[1]`, which is out of range. -/
theorem claim_C5_counterexample :
    processBean ⟨false, [], "check,host=h"⟩ 0 "keyspace" [] =
      BeanOutcome.crash := by
  decide

/-- Claim C5, corrected: the Transformer never errors or panics
provided every key segment whose text before the first `=` is
`keyspace`, `name` or `scope` contains at least one `=` (bare
recognized segments panic on `kv[1]`, refuting the original claim);
attribute values of every dynamic type are handled or silently
dropped. -/
theorem claim_C5 (cfg : Config) (ts : Int) (rawKey : String)
    (attrs : List (String × GoVal))
    (h : ∀ part ∈ strSplit ','
        (strRemoveFirst "org.apache.cassandra.metrics:" rawKey),
      ((strSplit '=' part).head? = some "keyspace" ∨
       (strSplit '=' part).head? = some "name" ∨
       (strSplit '=' part).head? = some "scope") →
      2 ≤ (strSplit '=' part).length) :
    processBean cfg ts rawKey attrs ≠ BeanOutcome.crash := by
  intro hq
  simp only [processBean] at hq
  split at hq
  · exact absurd hq (by simp)
  · split at hq
    · rename_i heq
      obtain ⟨tsl, htsl⟩ := tagsLoop_isSome _ h
      unfold extractTags at heq
      rw [htsl] at heq
      exact Option.noConfusion heq
    · split at hq
      · exact absurd hq (by simp)
      · split at hq
        · exact absurd hq (by simp)
        · exact absurd hq (by simp)

/-- Witness for claim C5 at a concrete well-formed key. -/
theorem claim_C5_witness :
    processBean ⟨false, [], "c"⟩ 0 "type=T,keyspace=k,scope=s,name=X" [] ≠
      BeanOutcome.crash :=
  claim_C5 ⟨false, [], "c"⟩ 0 "type=T,keyspace=k,scope=s,name=X" [] (by decide)

/-- Claim C6, counterexample: a `complex128` attribute is neither
null, slice, integer, float nor string, yet it is not dropped: the
type switch of `main.go` line 138 formats it through the `%f` branch
as a parenthesized pair that even contains an `i`. -/
theorem claim_C6_counterexample :
    processAttr "X" (GoVal.vcomplex128 1 2) =
      ⟨some "X=(1.000000+2.000000i)", 1, 0⟩ ∧
    (processAttr "X" (GoVal.vcomplex128 1 2)).field ≠ none :=
  ⟨by decide, by decide⟩

/-- Claim C6, corrected: per attribute entry, null and slice values
never contribute a formatted field; an integer renders as
`<attrName>=<integer>i` with a trailing `i`; a float (either width)
renders fixed-point and its last character is a decimal digit, never
`i`; a string renders double-quoted; complex values (not covered by
the claim's taxonomy) are formatted through the same `%f` branch as
floats rather than dropped; every remaining dynamic type is dropped
without error. -/
theorem claim_C6 (key : String) :
    processAttr key GoVal.vnull = ⟨none, 0, 0⟩ ∧
    processAttr key GoVal.vslice = ⟨none, 0, 0⟩ ∧
    processAttr key GoVal.vother = ⟨none, 0, 0⟩ ∧
    (∀ k n, (processAttr key (GoVal.vint k n)).field =
        some (key ++ "=" ++ toString n ++ "i") ∧
      (key ++ "=" ++ toString n ++ "i").data.getLast? = some 'i') ∧
    (∀ x, (processAttr key (GoVal.vfloat64 x)).field =
        some (key ++ "=" ++ formatFixed6 x) ∧
      (processAttr key (GoVal.vfloat32 x)).field =
        some (key ++ "=" ++ formatFixed6 x)) ∧
    (∀ x, ∃ d, (formatFixed6 x).data.getLast? = some d ∧ d ≠ 'i') ∧
    (∀ s, (processAttr key (GoVal.vstring s)).field =
        some (key ++ "=" ++ "\"" ++ s ++ "\"")) ∧
    (∀ re im, (processAttr key (GoVal.vcomplex64 re im)).field =
        some (key ++ "=" ++ formatComplexF re im) ∧
      (processAttr key (GoVal.vcomplex128 re im)).field =
        some (key ++ "=" ++ formatComplexF re im)) := by
  refine ⟨rfl, rfl, rfl, ?_, fun x => ⟨rfl, rfl⟩, ?_,
    fun s => rfl, fun re im => ⟨rfl, rfl⟩⟩
  · intro k n
    refine ⟨rfl, ?_⟩
    rw [String.data_append]
    exact List.getLast?_concat _
  · exact fun x => formatFixed6_last_not_i x

/-- Claim C7, counterexample: the trailing timestamp is not always
the document timestamp in seconds times `1000000000`. The program
prints `time.Unix(ts, 0).UnixNano()`, an int64 product: for the
decodable timestamp `10^10` seconds the printed value is the wrapped
`-8446744073709551616`, not `10^19`. -/
theorem claim_C7_counterexample :
    runLines ⟨false, [], "c,host=h"⟩
      ⟨200, none, 10000000000,
        [("type=T,keyspace=a,scope=c,name=B", [("X", GoVal.vint IntKind.i 7)])]⟩ =
      ["c,host=h,keyspace=a,cf=c,metric=B X=7i -8446744073709551616"] ∧
    wrap64 (10000000000 * 1000000000) ≠ (10000000000 : Int) * 1000000000 :=
  ⟨by decide, by decide⟩

/-- Claim C7, corrected: every line of a run has the shape
`commonKey,<tags> <fields> <timestampNanos>` — a comma-joined tag list
and a comma-joined, non-empty field list (`strings.Join` inserts no
trailing comma and `main.go` line 157 drops beans with no fields),
separated by single spaces — and the trailing timestamp, identical on
every line of the run, is the int64 product of the document timestamp
in seconds with `1000000000` (two's-complement wrap of
`time.Unix(ts, 0).UnixNano()`), which equals `seconds * 1000000000`
exactly when that product lies in the int64 range. -/
theorem claim_C7 (cfg : Config) (doc : JsonResp) :
    (∀ line ∈ runLines cfg doc, ∃ tags values, values ≠ [] ∧
      line = cfg.commonKey ++ "," ++ joinSep "," tags ++ " " ++
        joinSep "," values ++ " " ++
        toString (wrap64 (doc.timeStamp * 1000000000))) ∧
    (-9223372036854775808 ≤ doc.timeStamp * 1000000000 →
      doc.timeStamp * 1000000000 < 9223372036854775808 →
      wrap64 (doc.timeStamp * 1000000000) = doc.timeStamp * 1000000000) := by
  constructor
  · intro line hline
    unfold runLines at hline
    split at hline
    · exact absurd hline (by simp)
    · exact emitLoop_shape cfg doc.timeStamp doc.value line hline
  · intro h1 h2
    unfold wrap64
    omega

/-- Witness for claim C7 at a concrete one-bean document whose
timestamp product is in int64 range. -/
theorem claim_C7_witness :
    (∃ tags values, values ≠ [] ∧
      "c,host=h,keyspace=a,cf=c,metric=B X=7i 1000000000" =
        (⟨false, [], "c,host=h"⟩ : Config).commonKey ++ "," ++
        joinSep "," tags ++ " " ++ joinSep "," values ++ " " ++
        toString (wrap64 ((⟨200, none, 1,
          [("type=T,keyspace=a,scope=c,name=B", [("X", GoVal.vint IntKind.i 7)])]⟩ :
            JsonResp).timeStamp * 1000000000))) ∧
    wrap64 ((1 : Int) * 1000000000) = (1 : Int) * 1000000000 :=
  ⟨(claim_C7 ⟨false, [], "c,host=h"⟩
      ⟨200, none, 1,
        [("type=T,keyspace=a,scope=c,name=B", [("X", GoVal.vint IntKind.i 7)])]⟩).1
      "c,host=h,keyspace=a,cf=c,metric=B X=7i 1000000000" (by decide),
    (claim_C7 ⟨false, [], "c,host=h"⟩
      ⟨200, none, 1,
        [("type=T,keyspace=a,scope=c,name=B", [("X", GoVal.vint IntKind.i 7)])]⟩).2
      (by decide) (by decide)⟩

/-- Claim C8, confirmed: when the decoded document's status is not 200
or its error field is present, `main.go` line 93 aborts the process
via `log.Fatal` before the bean loop, so the value map is never
iterated and no line is printed. -/
theorem claim_C8 (cfg : Config) (doc : JsonResp)
    (h : doc.status ≠ 200 ∨ doc.error.isSome = true) :
    runLines cfg doc = [] := by
  have hf : docFatal doc = true := by
    unfold docFatal
    rcases h with h | h
    · simp [bne_iff_ne, h]
    · simp [h]
  unfold runLines
  rw [if_pos hf]

/-- Witness for claim C8 at a concrete status-500 document with a
non-empty value map. -/
theorem claim_C8_witness :
    runLines ⟨false, [], "c"⟩
      ⟨500, none, 7, [("type=T,keyspace=k", [("A", GoVal.vint IntKind.i 5)])]⟩ = [] :=
  claim_C8 ⟨false, [], "c"⟩
    ⟨500, none, 7, [("type=T,keyspace=k", [("A", GoVal.vint IntKind.i 5)])]⟩
    (Or.inl (by decide))

/-- Claim C9, counterexample: for the segment `scope=a=b` the code
splits at every `=` (Go `strings.Split`) and reads only `kv[1]`, so
the emitted tag is `cf=a`, not `cf=a=b` as the claim asserts. -/
theorem claim_C9_counterexample :
    extractTags "type=T,scope=a=b" = some ["cf=a"] ∧
    ("cf=a" : String) ≠ "cf=a=b" :=
  ⟨by decide, by decide⟩

/-- Claim C9, corrected: for a key segment with more than one `=`,
such as `scope=<v1>=<v2>`, tag extraction splits the segment at every
`=` and emits only the component between the first and the second `=`:
the tag is `cf=<v1>`, and the trailing `=<v2>` is discarded. -/
theorem claim_C9 (v1 v2 : String)
    (h1 : '=' ∉ v1.data) (h2 : '=' ∉ v2.data)
    (h3 : ',' ∉ v1.data) (h4 : ',' ∉ v2.data) :
    extractTags ("scope=" ++ v1 ++ "=" ++ v2) = some ["cf=" ++ v1] := by
  have hd : ("scope=" ++ v1 ++ "=" ++ v2).data =
      ['s', 'c', 'o', 'p', 'e'] ++ '=' :: (v1.data ++ '=' :: v2.data) := by
    show ((("scope=".data ++ v1.data) ++ "=".data) ++ v2.data) = _
    show (((['s', 'c', 'o', 'p', 'e', '='] ++ v1.data) ++ ['=']) ++ v2.data) = _
    simp [List.append_assoc]
  have hw : ',' ∉ ("scope=" ++ v1 ++ "=" ++ v2).data := by
    rw [hd]
    intro hmem
    rcases List.mem_append.mp hmem with hq | hq
    · exact absurd hq (by decide)
    · rcases List.mem_cons.mp hq with hq' | hq'
      · exact absurd hq' (by decide)
      · rcases List.mem_append.mp hq' with hq'' | hq''
        · exact h3 hq''
        · rcases List.mem_cons.mp hq'' with hq3 | hq3
          · exact absurd hq3 (by decide)
          · exact h4 hq3
  have hsplit1 : strSplit ',' ("scope=" ++ v1 ++ "=" ++ v2) =
      ["scope=" ++ v1 ++ "=" ++ v2] := by
    unfold strSplit
    rw [splitOnChar_of_not_mem hw]
    rfl
  have hsplit2 : strSplit '=' ("scope=" ++ v1 ++ "=" ++ v2) =
      ["scope", v1, v2] := by
    unfold strSplit
    rw [hd]
    rw [splitOnChar_append (by decide)]
    rw [splitOnChar_append h1]
    rw [splitOnChar_of_not_mem h2]
    rfl
  unfold extractTags
  rw [hsplit1]
  simp only [tagsLoop, hsplit2, List.head?_cons]
  rw [if_neg (by decide : ¬ ("scope" : String) = "keyspace")]
  rw [if_neg (by decide : ¬ ("scope" : String) = "name")]
  simp only [if_true]
  rfl

/-- Witness for claim C9 at the concrete segment `scope=a=b`. -/
theorem claim_C9_witness :
    extractTags ("scope=" ++ "a" ++ "=" ++ "b") = some ["cf=" ++ "a"] :=
  claim_C9 "a" "b" (by decide) (by decide) (by decide) (by decide)

/-- Claim C10, counterexample: the claim fails when `,name=<M>,` also
occurs before the final segment: in `a,name=Foo,name=Foo` the final
comma-separated segment is `name=Foo` (no comma follows it), yet
`skipMetric` with entry `Foo` returns true because of the earlier
occurrence. -/
theorem claim_C10_counterexample :
    skipMetric ["Foo"] "a,name=Foo,name=Foo" = true ∧
    (strSplit ',' "a,name=Foo,name=Foo").getLast? = some "name=Foo" :=
  ⟨by decide, by decide⟩

/-- Claim C10, corrected: for every configured skip entry `M` and
every bean key of the form `<p>,name=<M>` whose final comma-separated
segment is `name=<M>` (`M` comma-free) and whose remainder `p` does
not itself contain the substring `,name=`, the filter does not discard
the bean: every pattern `,name=<m>,` requires a comma after the name,
and the final segment has none. -/
theorem claim_C10 (skipList : List String) (M p : String)
    (hM : M ∈ skipList) (hMc : ',' ∉ M.data)
    (hp : strContains p ",name=" = false) :
    skipMetric skipList (p ++ ",name=" ++ M) = false := by
  have hpi : ¬ ((",name=" : String).data <:+: p.data) := by
    intro hq
    have hq' := (strContains_iff p ",name=").mpr hq
    rw [hp] at hq'
    exact Bool.noConfusion hq'
  unfold skipMetric
  rw [List.any_eq_false]
  intro m hm hc
  rw [strContains_iff] at hc
  simp only [String.data_append, List.append_assoc] at hc
  exact name_pattern_not_infix m.data p.data M.data hpi hMc hc

/-- Witness for claim C10 at a concrete key whose final segment names
a skip-listed metric. -/
theorem claim_C10_witness :
    skipMetric ["Foo"] ("type=T,keyspace=k,scope=s" ++ ",name=" ++ "Foo") = false :=
  claim_C10 ["Foo"] "Foo" "type=T,keyspace=k,scope=s"
    (by decide) (by decide) (by decide)
